import Mathlib

/-!
Shallow embedding of the Google Shopping Title Optimizer core
(`streamlit_app.py`): the title quality analyzer (`analyze_title_quality`),
the variant generator (`generate_title_variants`) and the winner selection
loop, together with theorems checking the specification against them.

Python strings are modelled at the codepoint level (a Lean `String` is a
packed `List Char`), so slicing, lowercasing, joining and substring search
are defined directly on the underlying character list, matching Python's
sequence-of-codepoints semantics for the ASCII data this program handles.
-/

set_option maxRecDepth 100000

namespace TitleOptimizer

/-- Python `len(s)`: the number of codepoints of `s`. -/
def pyLen (s : String) : Nat := s.data.length

/-- Python `s[:n]`: the first `n` codepoints of `s`. -/
def pySlice (s : String) (n : Nat) : String := String.mk (s.data.take n)

/-- Python `s.lower()` on ASCII data: lowercase every character. -/
def pyLower (s : String) : String := String.mk (s.data.map Char.toLower)

/-- Python `needle in hay` on strings: contiguous substring containment. -/
def pyContains (hay needle : String) : Bool := decide (needle.data <:+: hay.data)

/-- Python `s.isupper()` on ASCII data: at least one letter and no lowercase
letter. -/
def pyIsUpper (s : String) : Bool :=
  s.data.any (fun c => c.isAlpha) && s.data.all (fun c => !c.isLower)

/-- Python `sep.join(parts)`. -/
def pyJoin (sep : String) : List String → String
  | [] => ""
  | a :: as => as.foldl (fun acc x => acc ++ sep ++ x) a

/-- `TITLE_RULES['max_length']`. -/
def max_length : Nat := 150

/-- `TITLE_RULES['optimal_min']`. -/
def optimal_min : Nat := 70

/-- `TITLE_RULES['avoid_words']`. -/
def avoid_words : List String :=
  ["sale", "free shipping", "best", "cheap", "buy now", "new", "hot", "!"]

/-- The issue string `f"Exceeds {TITLE_RULES['max_length']} chars ({len(title)})"`. -/
def exceedsIssue (n : Nat) : String := "Exceeds 150 chars (" ++ toString n ++ ")"

/-- The issue string `f"Under optimal length ({len(title)} < 70)"`. -/
def underIssue (n : Nat) : String := "Under optimal length (" ++ toString n ++ " < 70)"

/-- The issue string `f'Contains "{word}"'`. -/
def containsIssue (w : String) : String := "Contains \"" ++ w ++ "\""

/-- The issue string for the all-caps rule. -/
def capsIssue : String := "Avoid ALL CAPS"

/-- The issue string for the exclamation-mark rule. -/
def exclIssue : String := "Remove exclamation marks"

/-- One iteration of the banned-word loop of `analyze_title_quality`:
`if word in title_lower: issues.append(...); score -= 15`. -/
def bannedStep (titleLower : String) (acc : Int × List String) (word : String) :
    Int × List String :=
  if pyContains titleLower word then (acc.1 - 15, acc.2 ++ [containsIssue word]) else acc

/-- `analyze_title_quality(title)` from `streamlit_app.py`: the quality score
(started at 100, penalties subtracted, clamped below at 0 by `max(score, 0)`)
and the ordered list of issues. -/
def analyze_title_quality (title : String) : Int × List String :=
  let p1 : Int × List String :=
    if pyLen title > max_length then (100 - 30, [exceedsIssue (pyLen title)])
    else if pyLen title < optimal_min then (100 - 10, [underIssue (pyLen title)])
    else (100, [])
  let p2 := avoid_words.foldl (bannedStep (pyLower title)) p1
  let p3 :=
    if pyIsUpper title ∧ pyLen title > 10 then (p2.1 - 10, p2.2 ++ [capsIssue]) else p2
  let p4 :=
    if pyContains title "!" then (p3.1 - 5, p3.2 ++ [exclIssue]) else p3
  (max p4.1 0, p4.2)

/-- A product record: the attributes `generate_title_variants` reads, with the
empty string standing for an absent attribute (Python `product.get(k, '')`). -/
structure Product where
  brand : String
  title : String
  color : String
  size : String
  material : String
  product_type : String
  google_product_category : String
  deriving DecidableEq

/-- One generated title variant, exactly the dict the generator appends:
`issues` is the single string `'; '.join(issues) if issues else 'None'`. -/
structure Variant where
  formula : String
  title : String
  description : String
  score : Int
  issues : String
  length : Nat
  deriving DecidableEq

/-- Python `product.get('product_type', '') or product.get('google_product_category', '')`:
the first operand unless it is falsy (empty). -/
def effectiveProductType (p : Product) : String :=
  if p.product_type ≠ "" then p.product_type else p.google_product_category

/-- The `if field: parts.append(field)` pattern: a singleton when the field is
non-empty, nothing otherwise. -/
def optPart (s : String) : List String := if s ≠ "" then [s] else []

/-- The parts list `[brand, title] (+ color) (+ size)` built for the
Brand First variant (the Compact variant rebuilds the identical list). -/
def brandFirstParts (p : Product) : List String :=
  [p.brand, p.title] ++ optPart p.color ++ optPart p.size

/-- The parts list `[title, brand] (+ color) (+ size)` of the Product First
variant. -/
def productFirstParts (p : Product) : List String :=
  [p.title, p.brand] ++ optPart p.color ++ optPart p.size

/-- The parts list of the Attribute Rich variant: the non-empty attributes
among brand, product type (with category fallback), color, size, material,
in that fixed order. -/
def attributeRichParts (p : Product) : List String :=
  optPart p.brand ++ optPart (effectiveProductType p) ++ optPart p.color ++
    optPart p.size ++ optPart p.material

/-- The SEO Natural composition: `f"{brand} {title}"`, then `f" in {color}"`
if color is non-empty, then `f", {size}"` if size is non-empty. -/
def seoNaturalComposed (p : Product) : String :=
  p.brand ++ " " ++ p.title ++
    (if p.color ≠ "" then " in " ++ p.color else "") ++
    (if p.size ≠ "" then ", " ++ p.size else "")

/-- The composed, pre-truncation title of each formula. -/
def composed (p : Product) (formula : String) : String :=
  if formula = "Brand First" then pyJoin " - " (brandFirstParts p)
  else if formula = "Product First" then pyJoin " - " (productFirstParts p)
  else if formula = "Attribute Rich" then pyJoin " - " (attributeRichParts p)
  else if formula = "Compact" then pyJoin " | " (brandFirstParts p)
  else if formula = "SEO Natural" then seoNaturalComposed p
  else ""

/-- `'; '.join(issues) if issues else 'None'`. -/
def joinIssues (issues : List String) : String :=
  if issues.isEmpty then "None" else pyJoin "; " issues

/-- Build one variant dict: truncate the composed title to 150 codepoints
(`[:150]`), analyze the truncated title, store score, joined issues and the
character count of the truncated title. -/
def mkVariant (formula description composedTitle : String) : Variant :=
  let t := pySlice composedTitle 150
  Variant.mk formula t description
    (analyze_title_quality t).1
    (joinIssues (analyze_title_quality t).2)
    (pyLen t)

/-- `generate_title_variants(product)` from `streamlit_app.py`: the five
conditional variant blocks, appended in source order. -/
def generate_title_variants (p : Product) : List Variant :=
  (if p.brand ≠ "" ∧ p.title ≠ "" then
      [mkVariant "Brand First" "Google recommended structure"
        (pyJoin " - " (brandFirstParts p))]
    else []) ++
  (if p.title ≠ "" ∧ p.brand ≠ "" then
      [mkVariant "Product First" "Product name leading"
        (pyJoin " - " (productFirstParts p))]
    else []) ++
  (if 3 ≤ (attributeRichParts p).length then
      [mkVariant "Attribute Rich" "Maximum attributes"
        (pyJoin " - " (attributeRichParts p))]
    else []) ++
  (if p.brand ≠ "" ∧ p.title ≠ "" then
      [mkVariant "Compact" "Space-efficient format"
        (pyJoin " | " (brandFirstParts p))]
    else []) ++
  (if p.brand ≠ "" ∧ p.title ≠ "" then
      [mkVariant "SEO Natural" "Natural language format" (seoNaturalComposed p)]
    else [])

/-- One formula's performance counters, as entered in the UI. -/
structure Counter where
  impressions : Nat
  clicks : Nat
  conversions : Nat
  deriving DecidableEq

/-- `ctr = (clicks / impressions * 100) if impressions > 0 else 0`. -/
def ctr (c : Counter) : ℚ :=
  if 0 < c.impressions then (c.clicks : ℚ) / (c.impressions : ℚ) * 100 else 0

/-- The winner-selection loop: starting from `max_ctr = 0`, `winner = None`,
each entry whose ctr strictly exceeds the running maximum replaces the
winner. -/
def winnerLoop : List (String × Counter) → ℚ → Option String → ℚ × Option String
  | [], maxCtr, winner => (maxCtr, winner)
  | e :: rest, maxCtr, winner =>
    if maxCtr < ctr e.2 then winnerLoop rest (ctr e.2) (some e.1)
    else winnerLoop rest maxCtr winner

/-- The whole winner selection: run the loop over the counters in iteration
order, then report the winner only under `if winner and max_ctr > 0`
(a Python-falsy empty-string winner is also suppressed). -/
def select_winner (counters : List (String × Counter)) : Option (String × ℚ) :=
  let r := winnerLoop counters 0 none
  match r.2 with
  | some w => if w ≠ "" ∧ 0 < r.1 then some (w, r.1) else none
  | none => none

/-- The banned words of `avoid_words` found in the lowercased title, in the
fixed list order. -/
def matchedWords (title : String) : List String :=
  avoid_words.filter (fun w => pyContains (pyLower title) w)

/-- The penalty charged by the length rule. -/
def lengthPenalty (title : String) : Int :=
  if pyLen title > max_length then 30
  else if pyLen title < optimal_min then 10 else 0

/-- The issues reported by the length rule. -/
def lengthIssues (title : String) : List String :=
  if pyLen title > max_length then [exceedsIssue (pyLen title)]
  else if pyLen title < optimal_min then [underIssue (pyLen title)]
  else []

/-- The firing condition of the all-caps rule. -/
def capsFired (title : String) : Prop := pyIsUpper title ∧ pyLen title > 10

instance (title : String) : Decidable (capsFired title) := by
  unfold capsFired; infer_instance

/-- The firing condition of the exclamation-mark rule. -/
def exclFired (title : String) : Prop := pyContains title "!" = true

instance (title : String) : Decidable (exclFired title) := by
  unfold exclFired; infer_instance

/-- At least one analyzer rule fires on `title`. -/
def ruleFired (title : String) : Prop :=
  pyLen title > max_length ∨ pyLen title < optimal_min ∨
    (∃ w ∈ avoid_words, pyContains (pyLower title) w) ∨
    capsFired title ∨ exclFired title

/-- The formula names emitted for a product, by the generator's conditions. -/
def formulaList (p : Product) : List String :=
  (if p.brand ≠ "" ∧ p.title ≠ "" then ["Brand First"] else []) ++
  (if p.title ≠ "" ∧ p.brand ≠ "" then ["Product First"] else []) ++
  (if 3 ≤ (attributeRichParts p).length then ["Attribute Rich"] else []) ++
  (if p.brand ≠ "" ∧ p.title ≠ "" then ["Compact"] else []) ++
  (if p.brand ≠ "" ∧ p.title ≠ "" then ["SEO Natural"] else [])

/-- The largest ctr among the entries (0 when there are none). -/
def maxCtrList (l : List (String × Counter)) : ℚ :=
  l.foldr (fun e a => max (ctr e.2) a) 0

/-- The worked four-attribute example product of the spec. -/
def nikeProduct : Product := Product.mk "Nike" "Running Shoe" "Red" "10" "" "" ""

/-- A brand-plus-long-title product whose Brand First composition has
87 characters, so its variant has no issues at all. -/
def plainProduct : Product :=
  Product.mk "Nike" (String.mk (List.replicate 80 'x')) "" "" "" "" ""

/-- A product whose Brand First composition has exactly 160 characters. -/
def longProduct : Product :=
  Product.mk (String.mk (List.replicate 100 'a')) (String.mk (List.replicate 57 'b'))
    "" "" "" "" ""

theorem foldl_bannedStep (tl : String) :
    ∀ (ws : List String) (sc : Int) (is : List String),
      ws.foldl (bannedStep tl) (sc, is) =
        (sc - 15 * ((ws.filter (fun w => pyContains tl w)).length : Int),
         is ++ (ws.filter (fun w => pyContains tl w)).map containsIssue)
  | [], sc, is => by simp
  | w :: ws, sc, is => by
    by_cases h : pyContains tl w
    · simp only [List.foldl_cons, bannedStep, if_pos h, List.filter_cons, h, if_true,
        foldl_bannedStep tl ws]
      refine Prod.ext ?_ ?_
      · simp only [List.length_cons]
        push_cast
        ring
      · simp
    · simp only [List.foldl_cons, bannedStep, if_neg h, List.filter_cons, h,
        foldl_bannedStep tl ws]
      simp

/-- Closed form for the analyzer: the score is 100 minus the independent rule
penalties (clamped at 0) and the issue list is the concatenation of the rule
issues in source order. -/
theorem analyze_decomp (t : String) :
    analyze_title_quality t =
      (max (100 - lengthPenalty t - 15 * ((matchedWords t).length : Int) -
          (if capsFired t then 10 else 0) - (if exclFired t then 5 else 0)) 0,
       lengthIssues t ++ (matchedWords t).map containsIssue ++
         (if capsFired t then [capsIssue] else []) ++
         (if exclFired t then [exclIssue] else [])) := by
  simp only [analyze_title_quality]
  unfold lengthPenalty lengthIssues matchedWords capsFired exclFired
  split_ifs <;> rw [foldl_bannedStep] <;> simp only [Prod.mk.injEq] <;>
    refine ⟨?_, by simp [List.append_assoc]⟩ <;>
    first
      | rfl
      | (congr 1 <;> push_cast <;> ring)

theorem data_append (s u : String) : (s ++ u).data = s.data ++ u.data := rfl

theorem ne_of_head? {a b : String} (h : a.data.head? ≠ b.data.head?) : a ≠ b :=
  fun e => h (by rw [e])

theorem head?_exceedsIssue (n : Nat) : (exceedsIssue n).data.head? = some 'E' := rfl

theorem head?_underIssue (n : Nat) : (underIssue n).data.head? = some 'U' := rfl

theorem head?_containsIssue (w : String) : (containsIssue w).data.head? = some 'C' := rfl

theorem head?_capsIssue : capsIssue.data.head? = some 'A' := rfl

theorem head?_exclIssue : exclIssue.data.head? = some 'R' := rfl

theorem exceedsIssue_ne_underIssue (m n : Nat) : exceedsIssue m ≠ underIssue n :=
  ne_of_head? (by rw [head?_exceedsIssue, head?_underIssue]; decide)

theorem exceedsIssue_ne_containsIssue (m : Nat) (w : String) :
    exceedsIssue m ≠ containsIssue w :=
  ne_of_head? (by rw [head?_exceedsIssue, head?_containsIssue]; decide)

theorem exceedsIssue_ne_capsIssue (m : Nat) : exceedsIssue m ≠ capsIssue :=
  ne_of_head? (by rw [head?_exceedsIssue, head?_capsIssue]; decide)

theorem exceedsIssue_ne_exclIssue (m : Nat) : exceedsIssue m ≠ exclIssue :=
  ne_of_head? (by rw [head?_exceedsIssue, head?_exclIssue]; decide)

theorem underIssue_ne_containsIssue (n : Nat) (w : String) :
    underIssue n ≠ containsIssue w :=
  ne_of_head? (by rw [head?_underIssue, head?_containsIssue]; decide)

theorem underIssue_ne_capsIssue (n : Nat) : underIssue n ≠ capsIssue :=
  ne_of_head? (by rw [head?_underIssue, head?_capsIssue]; decide)

theorem underIssue_ne_exclIssue (n : Nat) : underIssue n ≠ exclIssue :=
  ne_of_head? (by rw [head?_underIssue, head?_exclIssue]; decide)

theorem containsIssue_ne_capsIssue (w : String) : containsIssue w ≠ capsIssue :=
  ne_of_head? (by rw [head?_containsIssue, head?_capsIssue]; decide)

theorem containsIssue_ne_exclIssue (w : String) : containsIssue w ≠ exclIssue :=
  ne_of_head? (by rw [head?_containsIssue, head?_exclIssue]; decide)

theorem containsIssue_inj {w w' : String} (h : containsIssue w = containsIssue w') :
    w = w' := by
  have hd : ("Contains \"".data ++ w.data) ++ "\"".data =
      ("Contains \"".data ++ w'.data) ++ "\"".data := congrArg String.data h
  have h2 := List.append_cancel_right hd
  have h3 := List.append_cancel_left h2
  cases w
  cases w'
  exact congrArg String.mk h3

theorem singleton_infix_iff {α : Type} {a : α} {l : List α} : [a] <:+: l ↔ a ∈ l := by
  constructor
  · intro h
    exact h.sublist.subset (List.mem_singleton_self a)
  · intro h
    obtain ⟨s, u, rfl⟩ := List.append_of_mem h
    exact ⟨s, u, by simp⟩

theorem pyContains_excl_iff (s : String) : pyContains s "!" = true ↔ '!' ∈ s.data := by
  unfold pyContains
  rw [decide_eq_true_iff]
  exact singleton_infix_iff

theorem pyContains_lower_excl {t : String} (h : pyContains t "!" = true) :
    pyContains (pyLower t) "!" = true := by
  rw [pyContains_excl_iff] at h ⊢
  have hl : Char.toLower '!' = '!' := by decide
  simpa [pyLower, hl] using List.mem_map_of_mem Char.toLower h

/-- Membership in the analyzer's issue list, rule by rule. -/
theorem mem_analyze_issues (t s : String) :
    s ∈ (analyze_title_quality t).2 ↔
      s ∈ lengthIssues t ∨ s ∈ (matchedWords t).map containsIssue ∨
        (capsFired t ∧ s = capsIssue) ∨ (exclFired t ∧ s = exclIssue) := by
  rw [analyze_decomp]
  by_cases hc : capsFired t <;> by_cases he : exclFired t <;>
    simp [hc, he, List.mem_append, or_assoc]

theorem lengthPenalty_nonneg (t : String) : 0 ≤ lengthPenalty t := by
  unfold lengthPenalty
  split_ifs <;> norm_num

/-- C2: for every title `t`, `analyze(t)` returns an integer score in [0,100],
computed by starting at 100 and subtracting a fixed penalty per triggered rule
with the total floored at 0; the issues list is empty iff no rule fired, and
every triggered rule's issue string appears in the list even when the score
has been floored at 0. -/
theorem spec_C2_analyze_score_and_issues (t : String) :
    0 ≤ (analyze_title_quality t).1 ∧ (analyze_title_quality t).1 ≤ 100 ∧
    (analyze_title_quality t).1 =
      max (100 - lengthPenalty t - 15 * ((matchedWords t).length : Int) -
        (if capsFired t then 10 else 0) - (if exclFired t then 5 else 0)) 0 ∧
    ((analyze_title_quality t).2 = [] ↔ ¬ruleFired t) ∧
    (pyLen t > max_length → exceedsIssue (pyLen t) ∈ (analyze_title_quality t).2) ∧
    (pyLen t < optimal_min → underIssue (pyLen t) ∈ (analyze_title_quality t).2) ∧
    (∀ w ∈ matchedWords t, containsIssue w ∈ (analyze_title_quality t).2) ∧
    (capsFired t → capsIssue ∈ (analyze_title_quality t).2) ∧
    (exclFired t → exclIssue ∈ (analyze_title_quality t).2) := by
  have hscore : (analyze_title_quality t).1 =
      max (100 - lengthPenalty t - 15 * ((matchedWords t).length : Int) -
        (if capsFired t then 10 else 0) - (if exclFired t then 5 else 0)) 0 := by
    rw [analyze_decomp]
  have hex : pyLen t > max_length → exceedsIssue (pyLen t) ∈ (analyze_title_quality t).2 := by
    intro h
    rw [mem_analyze_issues]
    left
    unfold lengthIssues
    rw [if_pos h]
    exact List.mem_singleton_self _
  have hun : pyLen t < optimal_min → underIssue (pyLen t) ∈ (analyze_title_quality t).2 := by
    intro h
    have hn : ¬pyLen t > max_length := by
      simp only [optimal_min] at h
      simp only [max_length]
      omega
    rw [mem_analyze_issues]
    left
    unfold lengthIssues
    rw [if_neg hn, if_pos h]
    exact List.mem_singleton_self _
  have hba : ∀ w ∈ matchedWords t, containsIssue w ∈ (analyze_title_quality t).2 := by
    intro w hw
    rw [mem_analyze_issues]
    exact Or.inr (Or.inl (List.mem_map_of_mem _ hw))
  have hca : capsFired t → capsIssue ∈ (analyze_title_quality t).2 := by
    intro h
    rw [mem_analyze_issues]
    exact Or.inr (Or.inr (Or.inl ⟨h, rfl⟩))
  have hexc : exclFired t → exclIssue ∈ (analyze_title_quality t).2 := by
    intro h
    rw [mem_analyze_issues]
    exact Or.inr (Or.inr (Or.inr ⟨h, rfl⟩))
  refine ⟨?_, ?_, hscore, ?_, hex, hun, hba, hca, hexc⟩
  · rw [hscore]
    exact le_max_right _ _
  · rw [hscore]
    refine max_le ?_ (by norm_num)
    have h1 := lengthPenalty_nonneg t
    have h2 : (0 : Int) ≤ 15 * ((matchedWords t).length : Int) := by positivity
    have h3 : (0 : Int) ≤ (if capsFired t then 10 else 0) := by split_ifs <;> norm_num
    have h4 : (0 : Int) ≤ (if exclFired t then 5 else 0) := by split_ifs <;> norm_num
    linarith
  · constructor
    · intro hnil
      intro hrule
      have hmem : ∃ s : String, s ∈ (analyze_title_quality t).2 := by
        rcases hrule with h | h | ⟨w, hwa, hwc⟩ | h | h
        · exact ⟨_, hex h⟩
        · exact ⟨_, hun h⟩
        · refine ⟨containsIssue w, hba w ?_⟩
          unfold matchedWords
          exact List.mem_filter.2 ⟨hwa, hwc⟩
        · exact ⟨_, hca h⟩
        · exact ⟨_, hexc h⟩
      obtain ⟨s, hs⟩ := hmem
      rw [hnil] at hs
      exact absurd hs (List.not_mem_nil s)
    · intro hnr
      rw [List.eq_nil_iff_forall_not_mem]
      intro s hs
      rw [mem_analyze_issues] at hs
      rcases hs with h | h | ⟨hc, _⟩ | ⟨he, _⟩
      · unfold lengthIssues at h
        split_ifs at h with h1 h2
        · exact hnr (Or.inl h1)
        · exact hnr (Or.inr (Or.inl h2))
        · exact absurd h (List.not_mem_nil s)
      · obtain ⟨w, hw, _⟩ := List.mem_map.1 h
        unfold matchedWords at hw
        obtain ⟨hwa, hwc⟩ := List.mem_filter.1 hw
        exact hnr (Or.inr (Or.inr (Or.inl ⟨w, hwa, hwc⟩)))
      · exact hnr (Or.inr (Or.inr (Or.inr (Or.inl hc))))
      · exact hnr (Or.inr (Or.inr (Or.inr (Or.inr he))))

/-- C5: `analyze(t)` reports one issue `Contains "<word>"` (and charges −15,
cumulatively, in the score formula) exactly for the banned words the
lowercased title contains as a substring; a title containing the character
`!` gets the issue "Remove exclamation marks" (−5) and, since `!` is itself a
banned word, also the issue `Contains "!"`. -/
theorem spec_C5_banned_words_and_exclamation (t : String) :
    (∀ w : String, containsIssue w ∈ (analyze_title_quality t).2 ↔
        w ∈ avoid_words ∧ pyContains (pyLower t) w = true) ∧
    (exclIssue ∈ (analyze_title_quality t).2 ↔ pyContains t "!" = true) ∧
    (pyContains t "!" = true →
      containsIssue "!" ∈ (analyze_title_quality t).2 ∧
        exclIssue ∈ (analyze_title_quality t).2) ∧
    (analyze_title_quality t).1 =
      max (100 - lengthPenalty t - 15 * ((matchedWords t).length : Int) -
        (if capsFired t then 10 else 0) - (if exclFired t then 5 else 0)) 0 := by
  have hword : ∀ w : String, containsIssue w ∈ (analyze_title_quality t).2 ↔
      w ∈ avoid_words ∧ pyContains (pyLower t) w = true := by
    intro w
    rw [mem_analyze_issues]
    constructor
    · rintro (h | h | ⟨_, h⟩ | ⟨_, h⟩)
      · exfalso
        unfold lengthIssues at h
        split_ifs at h
        · exact exceedsIssue_ne_containsIssue _ _ (List.mem_singleton.1 h).symm
        · exact underIssue_ne_containsIssue _ _ (List.mem_singleton.1 h).symm
        · exact List.not_mem_nil _ h
      · obtain ⟨w', hw', heq⟩ := List.mem_map.1 h
        obtain rfl : w' = w := containsIssue_inj heq
        unfold matchedWords at hw'
        exact List.mem_filter.1 hw'
      · exact absurd h (containsIssue_ne_capsIssue w)
      · exact absurd h (containsIssue_ne_exclIssue w)
    · rintro ⟨ha, hc⟩
      refine Or.inr (Or.inl (List.mem_map_of_mem _ ?_))
      unfold matchedWords
      exact List.mem_filter.2 ⟨ha, hc⟩
  have hexcl : exclIssue ∈ (analyze_title_quality t).2 ↔ pyContains t "!" = true := by
    rw [mem_analyze_issues]
    constructor
    · rintro (h | h | ⟨_, h⟩ | ⟨he, _⟩)
      · exfalso
        unfold lengthIssues at h
        split_ifs at h
        · exact exceedsIssue_ne_exclIssue _ (List.mem_singleton.1 h).symm
        · exact underIssue_ne_exclIssue _ (List.mem_singleton.1 h).symm
        · exact List.not_mem_nil _ h
      · obtain ⟨w', _, heq⟩ := List.mem_map.1 h
        exact absurd heq (containsIssue_ne_exclIssue w')
      · exact absurd h (by decide)
      · exact he
    · intro h
      exact Or.inr (Or.inr (Or.inr ⟨h, rfl⟩))
  refine ⟨hword, hexcl, ?_, ?_⟩
  · intro h
    refine ⟨(hword "!").2 ⟨by decide, pyContains_lower_excl h⟩, hexcl.2 h⟩
  · rw [analyze_decomp]

/-- C6: the "Exceeds" issue is reported exactly when the title length is
greater than 150, the "Under optimal" issue exactly when the length is less
than 70, and the two are never reported together. -/
theorem spec_C6_length_rules (t : String) :
    (150 < pyLen t ↔ exceedsIssue (pyLen t) ∈ (analyze_title_quality t).2) ∧
    (pyLen t < 70 ↔ underIssue (pyLen t) ∈ (analyze_title_quality t).2) ∧
    ¬((∃ m, exceedsIssue m ∈ (analyze_title_quality t).2) ∧
        ∃ n, underIssue n ∈ (analyze_title_quality t).2) := by
  have hex : ∀ m, exceedsIssue m ∈ (analyze_title_quality t).2 → 150 < pyLen t := by
    intro m h
    rw [mem_analyze_issues] at h
    rcases h with h | h | ⟨_, h⟩ | ⟨_, h⟩
    · unfold lengthIssues at h
      split_ifs at h with h1 h2
      · simpa [max_length] using h1
      · exact absurd (List.mem_singleton.1 h) (exceedsIssue_ne_underIssue _ _)
      · exact absurd h (List.not_mem_nil _)
    · obtain ⟨w', _, heq⟩ := List.mem_map.1 h
      exact absurd heq.symm (exceedsIssue_ne_containsIssue _ _)
    · exact absurd h (exceedsIssue_ne_capsIssue m)
    · exact absurd h (exceedsIssue_ne_exclIssue m)
  have hun : ∀ n, underIssue n ∈ (analyze_title_quality t).2 → pyLen t < 70 := by
    intro n h
    rw [mem_analyze_issues] at h
    rcases h with h | h | ⟨_, h⟩ | ⟨_, h⟩
    · unfold lengthIssues at h
      split_ifs at h with h1 h2
      · exact absurd (List.mem_singleton.1 h).symm (exceedsIssue_ne_underIssue _ _)
      · simpa [optimal_min] using h2
      · exact absurd h (List.not_mem_nil _)
    · obtain ⟨w', _, heq⟩ := List.mem_map.1 h
      exact absurd heq.symm (underIssue_ne_containsIssue _ _)
    · exact absurd h (underIssue_ne_capsIssue n)
    · exact absurd h (underIssue_ne_exclIssue n)
  refine ⟨⟨?_, hex (pyLen t)⟩, ⟨?_, hun (pyLen t)⟩, ?_⟩
  · intro h
    rw [mem_analyze_issues]
    left
    unfold lengthIssues
    rw [if_pos (by simpa [max_length] using h)]
    exact List.mem_singleton_self _
  · intro h
    rw [mem_analyze_issues]
    left
    unfold lengthIssues
    rw [if_neg (by simp only [max_length]; omega), if_pos (by simpa [optimal_min] using h)]
    exact List.mem_singleton_self _
  · rintro ⟨⟨m, hm⟩, ⟨n, hn⟩⟩
    have h1 := hex m hm
    have h2 := hun n hn
    omega

theorem mkVariant_formula (f d c : String) : (mkVariant f d c).formula = f := rfl

theorem map_formula_generate (p : Product) :
    (generate_title_variants p).map (fun v => v.formula) = formulaList p := by
  unfold generate_title_variants formulaList
  split_ifs <;> simp [mkVariant_formula]

theorem attributeRichParts_length (p : Product) :
    (attributeRichParts p).length =
      List.countP (fun s => decide (s ≠ ""))
        [p.brand, effectiveProductType p, p.color, p.size, p.material] := by
  unfold attributeRichParts optPart
  split_ifs <;> simp_all [List.countP_cons]

/-- C3: the generator emits 0 to 5 variants in the fixed formula order, each
formula at most once, and a formula is present exactly when its field-presence
precondition holds, so the emitted set depends only on which attributes are
non-empty. -/
theorem spec_C3_formula_set (p : Product) :
    (generate_title_variants p).map (fun v => v.formula) = formulaList p ∧
    List.Sublist ((generate_title_variants p).map (fun v => v.formula))
      ["Brand First", "Product First", "Attribute Rich", "Compact", "SEO Natural"] ∧
    ((generate_title_variants p).map (fun v => v.formula)).Nodup ∧
    (generate_title_variants p).length ≤ 5 ∧
    ("Brand First" ∈ (generate_title_variants p).map (fun v => v.formula) ↔
      p.brand ≠ "" ∧ p.title ≠ "") ∧
    ("Product First" ∈ (generate_title_variants p).map (fun v => v.formula) ↔
      p.title ≠ "" ∧ p.brand ≠ "") ∧
    ("Attribute Rich" ∈ (generate_title_variants p).map (fun v => v.formula) ↔
      3 ≤ List.countP (fun s => decide (s ≠ ""))
        [p.brand, effectiveProductType p, p.color, p.size, p.material]) ∧
    ("Compact" ∈ (generate_title_variants p).map (fun v => v.formula) ↔
      p.brand ≠ "" ∧ p.title ≠ "") ∧
    ("SEO Natural" ∈ (generate_title_variants p).map (fun v => v.formula) ↔
      p.brand ≠ "" ∧ p.title ≠ "") := by
  have hmap := map_formula_generate p
  have hlen : (generate_title_variants p).length = (formulaList p).length := by
    rw [← hmap, List.length_map]
  rw [hmap, hlen, ← attributeRichParts_length]
  refine ⟨rfl, ?_, ?_, ?_, ?_, ?_, ?_, ?_, ?_⟩ <;>
    unfold formulaList <;> split_ifs <;> simp_all

theorem pyLen_pySlice (s : String) (n : Nat) : pyLen (pySlice s n) = min n (pyLen s) := by
  simp [pyLen, pySlice, List.length_take]

/-- Every generated variant is built by `mkVariant` from its formula's
composed title. -/
theorem generate_mem_cases (p : Product) (v : Variant)
    (h : v ∈ generate_title_variants p) :
    ∃ f d : String, v = mkVariant f d (composed p f) := by
  unfold generate_title_variants at h
  simp only [List.mem_append] at h
  rcases h with (((h | h) | h) | h) | h <;> split_ifs at h <;> simp at h
  · exact ⟨"Brand First", "Google recommended structure", by rw [h]; rfl⟩
  · exact ⟨"Product First", "Product name leading", by rw [h]; rfl⟩
  · exact ⟨"Attribute Rich", "Maximum attributes", by rw [h]; rfl⟩
  · exact ⟨"Compact", "Space-efficient format", by rw [h]; rfl⟩
  · exact ⟨"SEO Natural", "Natural language format", by rw [h]; rfl⟩

/-- C7: every emitted variant stores the first 150 codepoints of its formula's
composed string (possibly cutting mid-word), is scored by the analyzer only
after that truncation, and records as `length` the character count after
truncation; a composition of at least 150 characters (such as one of 160)
yields `length = 150`. -/
theorem spec_C7_truncate_then_score (p : Product) (v : Variant)
    (h : v ∈ generate_title_variants p) :
    v.title = pySlice (composed p v.formula) 150 ∧
    v.length = pyLen v.title ∧
    v.score = (analyze_title_quality v.title).1 ∧
    v.issues = joinIssues (analyze_title_quality v.title).2 ∧
    pyLen v.title ≤ 150 ∧
    (150 ≤ pyLen (composed p v.formula) → v.length = 150) := by
  obtain ⟨f, d, rfl⟩ := generate_mem_cases p v h
  refine ⟨rfl, rfl, rfl, rfl, ?_, ?_⟩
  · rw [show (mkVariant f d (composed p f)).title = pySlice (composed p f) 150 from rfl,
      pyLen_pySlice]
    exact min_le_left _ _
  · intro hge
    rw [show (mkVariant f d (composed p f)).length = pyLen (pySlice (composed p f) 150)
      from rfl, pyLen_pySlice]
    exact min_eq_left (by exact hge)

/-- C8: with an empty brand and no other usable attribute (an arbitrary title
is allowed), the generator returns the empty list as a defined outcome. -/
theorem spec_C8_empty_variants (p : Product) (hb : p.brand = "")
    (hc : p.color = "") (hs : p.size = "") (hm : p.material = "")
    (hpt : p.product_type = "") (hg : p.google_product_category = "") :
    generate_title_variants p = [] := by
  have h3 : ¬3 ≤ (attributeRichParts p).length := by
    unfold attributeRichParts optPart effectiveProductType
    simp [hb, hc, hs, hm, hpt, hg]
  unfold generate_title_variants
  simp [hb, h3]

/-- C8 witness: the spec's concrete example, a product carrying only a
title. -/
theorem spec_C8_witness :
    generate_title_variants (Product.mk "" "Shoe" "" "" "" "" "") = [] :=
  spec_C8_empty_variants _ rfl rfl rfl rfl rfl rfl

/-- C10: no generated variant can carry the "Exceeds 150 chars" issue or its
30-point penalty: the title reaching the analyzer is already truncated to at
most 150 characters, so the over-length branch is unreachable and the score
formula contains no 30-point length term. -/
theorem spec_C10_exceeds_unreachable (p : Product) (v : Variant)
    (h : v ∈ generate_title_variants p) :
    pyLen v.title ≤ 150 ∧
    (∀ m, exceedsIssue m ∉ (analyze_title_quality v.title).2) ∧
    v.score =
      max (100 - (if pyLen v.title < 70 then (10 : Int) else 0) -
        15 * ((matchedWords v.title).length : Int) -
        (if capsFired v.title then 10 else 0) -
        (if exclFired v.title then 5 else 0)) 0 := by
  obtain ⟨f, d, rfl⟩ := generate_mem_cases p v h
  have hle : pyLen (mkVariant f d (composed p f)).title ≤ 150 := by
    rw [show (mkVariant f d (composed p f)).title = pySlice (composed p f) 150 from rfl,
      pyLen_pySlice]
    exact min_le_left _ _
  have hnex : ¬pyLen (mkVariant f d (composed p f)).title > max_length := by
    simp only [max_length]
    omega
  refine ⟨hle, ?_, ?_⟩
  · intro m hm
    rw [mem_analyze_issues] at hm
    rcases hm with hm | hm | ⟨_, hm⟩ | ⟨_, hm⟩
    · unfold lengthIssues at hm
      rw [if_neg hnex] at hm
      split_ifs at hm
      · exact absurd (List.mem_singleton.1 hm) (exceedsIssue_ne_underIssue _ _)
      · exact absurd hm (List.not_mem_nil _)
    · obtain ⟨w', _, heq⟩ := List.mem_map.1 hm
      exact absurd heq.symm (exceedsIssue_ne_containsIssue _ _)
    · exact absurd hm (exceedsIssue_ne_capsIssue m)
    · exact absurd hm (exceedsIssue_ne_exclIssue m)
  · rw [show (mkVariant f d (composed p f)).score =
      (analyze_title_quality (mkVariant f d (composed p f)).title).1 from rfl, analyze_decomp]
    unfold lengthPenalty
    rw [if_neg hnex]
    simp only [optimal_min]

/-- C7 witness: on a product whose Brand First composition has 160
characters, the stored length is 150. -/
theorem spec_C7_witness :
    (mkVariant "Brand First" "Google recommended structure"
        (pyJoin " - " (brandFirstParts longProduct))).length = 150 :=
  (spec_C7_truncate_then_score longProduct _ (by decide)).2.2.2.2.2 (by decide)

/-- C10 witness: the Nike Brand First variant's analyzed issues contain no
over-length issue. -/
theorem spec_C10_witness :
    exceedsIssue 151 ∉
      (analyze_title_quality
        (mkVariant "Brand First" "Google recommended structure"
          (pyJoin " - " (brandFirstParts nikeProduct))).title).2 :=
  (spec_C10_exceeds_unreachable nikeProduct _ (by decide)).2.1 151

/-- C4 counterexample: on the Nike example the generator's Brand First
variant does have the claimed title, but its length is 30 (not 31), its score
is 90 (not 100) and it carries the under-length issue (not no issues). -/
theorem spec_C4_counterexample :
    ((generate_title_variants nikeProduct).map
        (fun v => (v.formula, v.title, v.score, v.length, v.issues))).head? =
      some ("Brand First", "Nike - Running Shoe - Red - 10", (90 : Int), (30 : Nat),
        "Under optimal length (30 < 70)") ∧
    (90 : Int) ≠ 100 ∧ (30 : Nat) ≠ 31 ∧
    "Under optimal length (30 < 70)" ≠ "None" := by
  refine ⟨by decide, by decide, by decide, by decide⟩

/-- C4 amended: the Brand First variant for
`{brand: "Nike", title: "Running Shoe", color: "Red", size: "10"}` has title
exactly "Nike - Running Shoe - Red - 10", length 30, score 90, and the single
issue "Under optimal length (30 < 70)". -/
theorem spec_C4_amended :
    ((generate_title_variants nikeProduct).map
        (fun v => (v.formula, v.title, v.score, v.length, v.issues))).head? =
      some ("Brand First", "Nike - Running Shoe - Red - 10", (90 : Int), (30 : Nat),
        "Under optimal length (30 < 70)") := by
  decide

/-- C9 counterexample: a variant with no analyzer issues stores the literal
string "None" in its `issues` attribute — the attribute is a joined string,
not an empty list. -/
theorem spec_C9_counterexample :
    ((generate_title_variants plainProduct).head?.map (fun v => v.issues)) = some "None" ∧
    (analyze_title_quality
      (pySlice (pyJoin " - " (brandFirstParts plainProduct)) 150)).2 = [] ∧
    "None" ≠ "" := by
  refine ⟨by decide, by decide, by decide⟩

/-- C9 amended: the variant's `issues` attribute is a single string: the
analyzer's ordered issue list joined with "; ", or the literal "None" when
that list is empty. -/
theorem spec_C9_issues_string (p : Product) (v : Variant)
    (h : v ∈ generate_title_variants p) :
    v.issues = joinIssues (analyze_title_quality v.title).2 ∧
    joinIssues [] = "None" ∧
    ∀ l : List String, l ≠ [] → joinIssues l = pyJoin "; " l := by
  obtain ⟨f, d, rfl⟩ := generate_mem_cases p v h
  refine ⟨rfl, rfl, ?_⟩
  intro l hl
  unfold joinIssues
  rw [if_neg (by simpa using hl)]

/-- C9 witness: the amended description evaluated on the no-issue product's
Brand First variant. -/
theorem spec_C9_witness :
    (mkVariant "Brand First" "Google recommended structure"
        (pyJoin " - " (brandFirstParts plainProduct))).issues =
      joinIssues (analyze_title_quality
        (mkVariant "Brand First" "Google recommended structure"
          (pyJoin " - " (brandFirstParts plainProduct))).title).2 :=
  (spec_C9_issues_string plainProduct _ (by decide)).1

theorem ctr_nonneg (c : Counter) : 0 ≤ ctr c := by
  unfold ctr
  split_ifs
  · positivity
  · exact le_refl 0

theorem maxCtrList_nil : maxCtrList [] = 0 := rfl

theorem maxCtrList_cons (e : String × Counter) (l : List (String × Counter)) :
    maxCtrList (e :: l) = max (ctr e.2) (maxCtrList l) := rfl

theorem maxCtrList_nonneg (l : List (String × Counter)) : 0 ≤ maxCtrList l := by
  induction l with
  | nil => exact le_refl 0
  | cons e l ih => exact le_trans ih (by rw [maxCtrList_cons]; exact le_max_right _ _)

theorem le_maxCtrList {l : List (String × Counter)} {e : String × Counter}
    (h : e ∈ l) : ctr e.2 ≤ maxCtrList l := by
  induction l with
  | nil => exact absurd h (List.not_mem_nil e)
  | cons x l ih =>
    rw [maxCtrList_cons]
    rcases List.mem_cons.1 h with rfl | h
    · exact le_max_left _ _
    · exact le_trans (ih h) (le_max_right _ _)

theorem maxCtrList_le {l : List (String × Counter)} {c : ℚ} (hc : 0 ≤ c)
    (h : ∀ e ∈ l, ctr e.2 ≤ c) : maxCtrList l ≤ c := by
  induction l with
  | nil => exact hc
  | cons x l ih =>
    rw [maxCtrList_cons]
    exact max_le (h x (List.mem_cons_self x l)) (ih fun e he => h e (List.mem_cons_of_mem x he))

theorem maxCtrList_attained {l : List (String × Counter)} (h : 0 < maxCtrList l) :
    ∃ e ∈ l, ctr e.2 = maxCtrList l := by
  induction l with
  | nil => exact absurd h (by rw [maxCtrList_nil]; exact lt_irrefl 0)
  | cons e l ih =>
    rcases le_or_lt (maxCtrList l) (ctr e.2) with hle | hlt
    · exact ⟨e, List.mem_cons_self e l, by rw [maxCtrList_cons, max_eq_left hle]⟩
    · rw [maxCtrList_cons, max_eq_right hlt.le] at h ⊢
      obtain ⟨x, hx, hc⟩ := ih h
      exact ⟨x, List.mem_cons_of_mem e hx, hc⟩

/-- Closed form of the selection loop: it returns the running maximum joined
with the list maximum, and the winner is the first entry attaining the list
maximum whenever that strictly beats the starting maximum. -/
theorem winnerLoop_eq (l : List (String × Counter)) :
    ∀ (m : ℚ) (w : Option String), 0 ≤ m →
      winnerLoop l m w =
        (max m (maxCtrList l),
         if m < maxCtrList l then
           (l.find? (fun e => decide (ctr e.2 = maxCtrList l))).map Prod.fst
         else w) := by
  induction l with
  | nil =>
    intro m w hm
    rw [winnerLoop, maxCtrList_nil, max_eq_left hm, if_neg (not_lt.2 hm)]
  | cons e l ih =>
    intro m w hm
    rw [winnerLoop, maxCtrList_cons]
    by_cases h : m < ctr e.2
    · rw [if_pos h, ih (ctr e.2) (some e.1) (ctr_nonneg e.2)]
      rcases lt_or_le (ctr e.2) (maxCtrList l) with hc | hc
      · have hmax : max (ctr e.2) (maxCtrList l) = maxCtrList l := max_eq_right hc.le
        have hm2 : m < max (ctr e.2) (maxCtrList l) := lt_of_lt_of_le h (le_max_left _ _)
        have hfind : (e :: l).find? (fun x => decide (ctr x.2 = max (ctr e.2) (maxCtrList l))) =
            l.find? (fun x => decide (ctr x.2 = max (ctr e.2) (maxCtrList l))) :=
          List.find?_cons_of_neg _ (by simp [hmax]; exact ne_of_lt hc)
        rw [if_pos hc, if_pos hm2, hfind, hmax, max_eq_right (h.trans hc).le]
      · have hmax : max (ctr e.2) (maxCtrList l) = ctr e.2 := max_eq_left hc
        have hm2 : m < max (ctr e.2) (maxCtrList l) := by rw [hmax]; exact h
        have hfind : (e :: l).find? (fun x => decide (ctr x.2 = max (ctr e.2) (maxCtrList l))) =
            some e :=
          List.find?_cons_of_pos _ (by simp [hmax])
        rw [if_neg (not_lt.2 hc), if_pos hm2, hfind, hmax, max_eq_right h.le]
        rfl
    · have hem : ctr e.2 ≤ m := not_lt.1 h
      rw [if_neg h, ih m w hm]
      have hmaxm : max m (max (ctr e.2) (maxCtrList l)) = max m (maxCtrList l) := by
        rw [← max_assoc, max_eq_left hem]
      have hiff : m < max (ctr e.2) (maxCtrList l) ↔ m < maxCtrList l := by
        rw [lt_max_iff]
        exact ⟨fun hor => hor.resolve_left h, Or.inr⟩
      rcases lt_or_le m (maxCtrList l) with hml | hml
      · have hmax : max (ctr e.2) (maxCtrList l) = maxCtrList l :=
          max_eq_right (le_trans hem hml.le)
        have hfind : (e :: l).find? (fun x => decide (ctr x.2 = max (ctr e.2) (maxCtrList l))) =
            l.find? (fun x => decide (ctr x.2 = max (ctr e.2) (maxCtrList l))) :=
          List.find?_cons_of_neg _
            (by simp [hmax]; exact ne_of_lt (lt_of_le_of_lt hem hml))
        rw [if_pos hml, if_pos (hiff.2 hml), hfind, hmax]
      · rw [if_neg (not_lt.2 hml), if_neg (fun hlt => absurd (hiff.1 hlt) (not_lt.2 hml)),
          hmaxm]

theorem select_winner_eq_cases (counters : List (String × Counter)) :
    select_winner counters =
      match (winnerLoop counters 0 none).2 with
      | some w =>
        if w ≠ "" ∧ 0 < (winnerLoop counters 0 none).1
        then some (w, (winnerLoop counters 0 none).1) else none
      | none => none := rfl

/-- C1: each entry's ctr is `clicks / impressions * 100` when there are
impressions and 0 otherwise; the selector reports `some (w, c)` exactly when
`w`'s entry is the first in iteration order attaining the maximal ctr `c`,
with `c` strictly positive — strictly above every earlier entry's ctr and at
least every later one's — and reports no winner exactly when no entry has a
positive ctr (in particular when all impressions are 0). -/
theorem spec_C1_select_winner (counters : List (String × Counter))
    (hkeys : ∀ e ∈ counters, e.1 ≠ "") :
    (∀ c : Counter, ctr c =
      if 0 < c.impressions then (c.clicks : ℚ) / (c.impressions : ℚ) * 100 else 0) ∧
    (∀ (w : String) (cv : ℚ), select_winner counters = some (w, cv) ↔
      ∃ pre e post, counters = pre ++ e :: post ∧ e.1 = w ∧ ctr e.2 = cv ∧ 0 < cv ∧
        (∀ x ∈ pre, ctr x.2 < cv) ∧ (∀ x ∈ post, ctr x.2 ≤ cv)) ∧
    (select_winner counters = none ↔ ∀ e ∈ counters, ctr e.2 = 0) := by
  have hloop := winnerLoop_eq counters 0 none (le_refl 0)
  have hfst : (winnerLoop counters 0 none).1 = maxCtrList counters := by
    rw [hloop]
    exact max_eq_right (maxCtrList_nonneg counters)
  have hsnd : (winnerLoop counters 0 none).2 =
      if 0 < maxCtrList counters then
        (counters.find? (fun e => decide (ctr e.2 = maxCtrList counters))).map Prod.fst
      else none := by
    rw [hloop]
  refine ⟨fun c => rfl, ?_⟩
  rcases lt_or_le 0 (maxCtrList counters) with hM | hM
  · obtain ⟨e₀, he₀m, he₀c⟩ := maxCtrList_attained hM
    have hsome : (counters.find? (fun e => decide (ctr e.2 = maxCtrList counters))).isSome :=
      List.find?_isSome.2 ⟨e₀, he₀m, by simp [he₀c]⟩
    obtain ⟨e₁, hfind⟩ := Option.isSome_iff_exists.1 hsome
    obtain ⟨hp₁, pre₁, post₁, hsplit₁, hpre₁⟩ := List.find?_eq_some.1 hfind
    have he₁c : ctr e₁.2 = maxCtrList counters := of_decide_eq_true hp₁
    have he₁m : e₁ ∈ counters := List.mem_of_find?_eq_some hfind
    have hsel : select_winner counters = some (e₁.1, maxCtrList counters) := by
      have hne : e₁.1 ≠ "" := hkeys e₁ he₁m
      rw [select_winner_eq_cases, hsnd, hfst, if_pos hM, hfind]
      simp [hne, hM]
    constructor
    · intro w cv
      rw [hsel]
      constructor
      · intro heq
        obtain ⟨h1, h2⟩ : e₁.1 = w ∧ maxCtrList counters = cv := by
          simpa using heq
        refine ⟨pre₁, e₁, post₁, hsplit₁, h1, h2 ▸ he₁c, h2 ▸ hM, ?_, ?_⟩
        · intro x hx
          have hxm : x ∈ counters := by
            rw [hsplit₁]
            exact List.mem_append_of_mem_left _ hx
          have hxle : ctr x.2 ≤ maxCtrList counters := le_maxCtrList hxm
          have hxne : ctr x.2 ≠ maxCtrList counters := by
            have := hpre₁ x hx
            simpa using this
          rw [← h2]
          exact lt_of_le_of_ne hxle hxne
        · intro x hx
          have hxm : x ∈ counters := by
            rw [hsplit₁]
            exact List.mem_append_of_mem_right _ (List.mem_cons_of_mem e₁ hx)
          rw [← h2]
          exact le_maxCtrList hxm
      · rintro ⟨pre, e, post, hsplit, rfl, rfl, hpos, hpre, hpost⟩
        have hem : e ∈ counters := by
          rw [hsplit]
          exact List.mem_append_of_mem_right _ (List.mem_cons_self e post)
        have hMe : maxCtrList counters = ctr e.2 := by
          refine le_antisymm ?_ (le_maxCtrList hem)
          refine maxCtrList_le (ctr_nonneg e.2) ?_
          intro x hx
          rw [hsplit] at hx
          rcases List.mem_append.1 hx with hx | hx
          · exact (hpre x hx).le
          · rcases List.mem_cons.1 hx with rfl | hx
            · exact le_refl _
            · exact hpost x hx
        obtain ⟨M, hMdef⟩ : ∃ M, maxCtrList counters = M := ⟨_, rfl⟩
        rw [hMdef] at hfind hMe ⊢
        have hfind2 : counters.find? (fun x => decide (ctr x.2 = M)) = some e := by
          rw [hsplit, List.find?_append]
          have hnone : pre.find? (fun x => decide (ctr x.2 = M)) = none :=
            List.find?_eq_none.2 fun x hx => by
              simp only [decide_eq_true_eq]
              exact ne_of_lt (by rw [hMe]; exact hpre x hx)
          rw [hnone, List.find?_cons_of_pos _ (by simp [hMe])]
          rfl
        have he₁e : e₁ = e := by
          have := hfind.symm.trans hfind2
          simpa using this
        rw [he₁e, hMe]
    · rw [hsel]
      constructor
      · intro h
        exact absurd h (by simp)
      · intro hall
        exfalso
        have := hall e₀ he₀m
        rw [he₀c] at this
        exact absurd this (ne_of_gt hM)
  · have hM0 : maxCtrList counters = 0 := le_antisymm hM (maxCtrList_nonneg counters)
    have hsel : select_winner counters = none := by
      rw [select_winner_eq_cases, hsnd, if_neg (not_lt.2 hM)]
    constructor
    · intro w cv
      rw [hsel]
      constructor
      · intro h
        exact absurd h (by simp)
      · rintro ⟨pre, e, post, hsplit, rfl, rfl, hpos, hpre, hpost⟩
        exfalso
        have hem : e ∈ counters := by
          rw [hsplit]
          exact List.mem_append_of_mem_right _ (List.mem_cons_self e post)
        have := le_maxCtrList hem
        rw [hM0] at this
        exact absurd hpos (not_lt.2 this)
    · rw [hsel]
      refine ⟨fun _ e he => ?_, fun _ => rfl⟩
      refine le_antisymm ?_ (ctr_nonneg e.2)
      rw [← hM0]
      exact le_maxCtrList he

/-- C1 witness: the spec's worked example — entry A with 100 impressions and
10 clicks (ctr 10) followed by entry B with 50 impressions and 10 clicks
(ctr 20) — selects B with ctr 20. -/
theorem spec_C1_witness :
    select_winner [("A", Counter.mk 100 10 0), ("B", Counter.mk 50 10 0)] =
      some ("B", 20) := by
  refine ((spec_C1_select_winner
      [("A", Counter.mk 100 10 0), ("B", Counter.mk 50 10 0)]
      (by decide)).2.1 "B" 20).2
    ⟨[("A", Counter.mk 100 10 0)], ("B", Counter.mk 50 10 0), [], rfl, rfl, ?_, ?_, ?_, ?_⟩
  · norm_num [ctr]
  · norm_num
  · intro x hx
    rw [List.mem_singleton] at hx
    subst hx
    norm_num [ctr]
  · intro x hx
    exact absurd hx (List.not_mem_nil x)

end TitleOptimizer
